import Mathlib

/-!
Verification of the KPI scoring, hierarchical-approval and organisational-tree
logic of the kpimanagerchc application.  Loosely typed JavaScript values that
may be `null`/`undefined`, a number or a string are modelled by `JSVal`;
JavaScript numbers are modelled by rationals; SQL `NULL`able columns are
modelled by `Option`.
-/

/-- Value of a loosely typed JavaScript expression: `null`/`undefined`, a
finite number, or a string. -/
inductive JSVal where
  | vnull : JSVal
  | vnum : Rat → JSVal
  | vstr : String → JSVal
deriving DecidableEq

/-- Replacement of the first occurrence of `pat` inside a character list by
`repl`; the list is returned unchanged when `pat` does not occur. -/
def replaceFirstAux (pat repl : List Char) : List Char → List Char
  | [] => []
  | c :: rest =>
    if pat.isPrefixOf (c :: rest) then repl ++ (c :: rest).drop pat.length
    else c :: replaceFirstAux pat repl rest

/-- Replacement of the first occurrence of `pat` in `s` by `repl`, the
behaviour of JavaScript `String.prototype.replace` with a string pattern. -/
def replaceFirst (s pat repl : String) : String :=
  ⟨replaceFirstAux pat.data repl.data s.data⟩

/-- Whitespace trimming on a character list: leading and trailing whitespace
characters are removed. -/
def jsTrimChars (l : List Char) : List Char :=
  ((l.dropWhile Char.isWhitespace).reverse.dropWhile Char.isWhitespace).reverse

/-- Model of JavaScript `String.prototype.trim`. -/
def jsTrim (s : String) : String := ⟨jsTrimChars s.data⟩

/-- Model of JavaScript `String.prototype.toUpperCase` on the ASCII range. -/
def jsToUpper (s : String) : String := ⟨s.data.map Char.toUpper⟩

/-- Model of JavaScript `String.prototype.toLowerCase` on the ASCII range. -/
def jsToLower (s : String) : String := ⟨s.data.map Char.toLower⟩

/-- Numeric value of a decimal digit character. -/
def digitVal (c : Char) : Nat := c.toNat - '0'.toNat

/-- Natural number denoted by a list of decimal digit characters. -/
def natOfDigits (ds : List Char) : Nat :=
  ds.foldl (fun n c => 10 * n + digitVal c) 0

/-- Sign prefix of a character stream: `true` for a leading minus. -/
def splitSign : List Char → Bool × List Char
  | '-' :: t => (true, t)
  | '+' :: t => (false, t)
  | cs => (false, cs)

/-- Exponent suffix accepted by `parseFloat` (`e`/`E`, optional sign, digits);
an exponent marker without digits is ignored, as in JavaScript. -/
def parseExp (cs : List Char) : Int :=
  match cs with
  | 'e' :: t | 'E' :: t =>
    let (eneg, t') := splitSign t
    let eds := t'.takeWhile Char.isDigit
    if eds.isEmpty then 0
    else if eneg then -(natOfDigits eds : Int) else (natOfDigits eds : Int)
  | _ => 0

/-- Model of JavaScript `parseFloat`: an optional sign, an integer part, an
optional fractional part and an optional exponent are read from the front of
the string and any trailing characters are ignored; when no digit is found the
result is `NaN`, modelled as `none`.  The rational denoted by the decimal
form is built directly as a quotient of integers. -/
def parseFloat (s : String) : Option Rat :=
  let (neg, cs) := splitSign s.data
  let ds1 := cs.takeWhile Char.isDigit
  let cs1 := cs.dropWhile Char.isDigit
  let (ds2, cs2) :=
    match cs1 with
    | '.' :: t => (t.takeWhile Char.isDigit, t.dropWhile Char.isDigit)
    | _ => (([] : List Char), cs1)
  if ds1.isEmpty && ds2.isEmpty then none
  else
    let e := parseExp cs2
    let mant : Int := (natOfDigits (ds1 ++ ds2) : Int)
    let num : Int := (if neg then -mant else mant) * (10 : Int) ^ e.toNat
    let den : Nat := 10 ^ ds2.length * 10 ^ (-e).toNat
    some (mkRat num den)

/-- String form `String(v)` of a JavaScript value; the rendering of numbers
abstracts the exact JavaScript number formatting (every code path below
converts `null` before calling `String`). -/
def jsString : JSVal → String
  | .vnull => "null"
  | .vnum q => toString q
  | .vstr s => s

/-- Model of `toNumberOrNull` (services/kpiScoring.js and routes/kpis.js):
`null`/`undefined` give `null`, finite numbers pass through, and strings have
one `%` removed, are trimmed, have one decimal comma turned into a dot, and
are parsed with `parseFloat`; an empty remainder or an unparseable string
gives `null`. -/
def toNumberOrNull : JSVal → Option Rat
  | .vnull => none
  | .vnum n => some n
  | .vstr v =>
    let s := replaceFirst (jsTrim (replaceFirst v "%" "")) "," "."
    if s = "" then none else parseFloat s

/-- Row of the `kpis` table as consumed by the scoring function; SQL `NULL`s
are `none` and the numeric thresholds arrive as raw database values. -/
structure Kpi where
  score_type : Option String
  direction : Option String
  threshold_yellow : JSVal
  threshold_green : JSVal
  criterion_red : Option String
  criterion_yellow : Option String
  criterion_green : Option String
deriving DecidableEq

/-- JavaScript `a || b` for a possibly null string `a`: `null`, `undefined`
and the empty string are falsy and fall through to the default. -/
def jsOrStr (a : Option String) (b : String) : String :=
  match a with
  | none => b
  | some s => if s = "" then b else s

/-- Result triple of the scoring function (`color`, `score`, `reason`). -/
structure ScoreResult where
  color : Option String
  score : Option Nat
  reason : Option String
deriving DecidableEq

/-- Model of `scoreKpi` (services/kpiScoring.js): CRITERION KPIs compare the
trimmed string value against the trimmed criterion strings, green before
yellow before red; all other score types parse the value and both thresholds
and grade by inclusive threshold comparison, `HIGHER_BETTER` with `≥` and any
other direction with `≤`. -/
def scoreKpi : Option Kpi → JSVal → ScoreResult
  | none, _ => ⟨none, none, some "KPI inválido"⟩
  | some kpi, rawValue =>
    let scoreType := jsToUpper (jsOrStr kpi.score_type "")
    let direction := jsToUpper (jsOrStr kpi.direction "HIGHER_BETTER")
    if scoreType = "CRITERION" then
      let v := match rawValue with
        | .vnull => ""
        | w => jsTrim (jsString w)
      let r := jsTrim (jsOrStr kpi.criterion_red "")
      let y := jsTrim (jsOrStr kpi.criterion_yellow "")
      let g := jsTrim (jsOrStr kpi.criterion_green "")
      if r = "" ∧ y = "" ∧ g = "" then ⟨none, none, some "Sin criterios definidos"⟩
      else if g ≠ "" ∧ v = g then ⟨some "verde", some 100, none⟩
      else if y ≠ "" ∧ v = y then ⟨some "amarillo", some 70, none⟩
      else if r ≠ "" ∧ v = r then ⟨some "rojo", some 40, none⟩
      else ⟨none, none, some "Valor no coincide con criterio"⟩
    else
      match toNumberOrNull rawValue with
      | none => ⟨none, none, some "Valor no numérico"⟩
      | some n =>
        match toNumberOrNull kpi.threshold_yellow, toNumberOrNull kpi.threshold_green with
        | some ty, some tg =>
          if direction = "HIGHER_BETTER" then
            if n ≥ tg then ⟨some "verde", some 100, none⟩
            else if n ≥ ty then ⟨some "amarillo", some 70, none⟩
            else ⟨some "rojo", some 40, none⟩
          else
            if n ≤ tg then ⟨some "verde", some 100, none⟩
            else if n ≤ ty then ⟨some "amarillo", some 70, none⟩
            else ⟨some "rojo", some 40, none⟩
        | _, _ => ⟨none, none, some "Sin umbrales definidos"⟩

example : toNumberOrNull (.vstr "90,5%") = some (mkRat 181 2) := rfl
example : toNumberOrNull (.vstr "  80 ") = some 80 := rfl
example : toNumberOrNull (.vstr "abc") = none := rfl
example : scoreKpi (some ⟨some "NUMBER", some "HIGHER_BETTER", .vstr "70", .vstr "90",
    none, none, none⟩) (.vstr "90") = ⟨some "verde", some 100, none⟩ := rfl
example : scoreKpi (some ⟨some "NUMBER", some "LOWER_BETTER", .vstr "70", .vstr "50",
    none, none, none⟩) (.vstr "60") = ⟨some "amarillo", some 70, none⟩ := rfl
example : scoreKpi (some ⟨some "CRITERION", none, .vnull, .vnull,
    some "malo", some "regular", some "bueno"⟩) (.vstr " bueno ") =
    ⟨some "verde", some 100, none⟩ := rfl
example : scoreKpi (some ⟨some "CRITERION", none, .vnull, .vnull,
    some "malo", some "regular", some "bueno"⟩) (.vstr "otro") =
    ⟨none, none, some "Valor no coincide con criterio"⟩ := rfl

/-- Row of the `puestos` table: the position id and the position it reports to
(`responde_a_id`, `NULL` for a root position). -/
structure Puesto where
  id : Nat
  responde_a_id : Option Nat
deriving DecidableEq

/-- Row of the `empleados` table restricted to the columns the approval logic
reads: the employee id and the (nullable) position id. -/
structure Empleado where
  id : Nat
  puesto_id : Option Nat
deriving DecidableEq

/-- Snapshot of the organisational tables read by the route handlers. -/
structure OrgDb where
  empleados : List Empleado
  puestos : List Puesto

/-- Lookup `SELECT ... FROM empleados WHERE id = ? LIMIT 1`. -/
def findEmpleado (db : OrgDb) (eid : Nat) : Option Empleado :=
  db.empleados.find? (fun e => e.id == eid)

/-- Lookup `SELECT ... FROM puestos WHERE id = ? LIMIT 1`. -/
def findPuesto (db : OrgDb) (pid : Nat) : Option Puesto :=
  db.puestos.find? (fun p => p.id == pid)

/-- The `responde_a_id` produced by `LEFT JOIN puestos p ON p.id = e.puesto_id`
for an employee row: `NULL` when the employee has no position or the position
row is missing. -/
def respondeAOfEmpleado (db : OrgDb) (e : Empleado) : Option Nat :=
  match e.puesto_id with
  | none => none
  | some pid =>
    match findPuesto db pid with
    | none => none
    | some p => p.responde_a_id

/-- The joined `responde_a_id` for an employee id, `NULL` when there is no such
employee row (an empty SQL result). -/
def respondeAOfTarget (db : OrgDb) (eid : Nat) : Option Nat :=
  match findEmpleado db eid with
  | none => none
  | some e => respondeAOfEmpleado db e

/-- Session user as stored by the login flow: employee id, role string and
position id. -/
structure User where
  id : Nat
  role : String
  puesto_id : Nat
deriving DecidableEq

/-- The elevated-role check `user.role === 'admin' || user.role === 'manager'`
repeated throughout the route handlers. -/
def isElevatedRole (u : User) : Bool :=
  u.role == "admin" || u.role == "manager"

/-- Model of `buildSubordinatePuestoIds` (routes/kpis.js): for every position
reporting directly to `puestoId` push its id and recurse into it.  The
JavaScript recursion carries no bound and diverges on a cyclic `responde_a_id`
graph; the embedding descends through at most `fuel` levels, and every call
site passes the length of the position list, which bounds the depth of any
acyclic chain. -/
def buildSubordinatePuestoIds : Nat → Nat → List Puesto → List Nat
  | 0, _, _ => []
  | fuel + 1, puestoId, puestoMap =>
    puestoMap.foldl
      (fun subordinates p =>
        if p.responde_a_id = some puestoId then
          (subordinates ++ [p.id]) ++ buildSubordinatePuestoIds fuel p.id puestoMap
        else subordinates)
      []

/-- Model of `isDirectBossByPuesto` (routes/kpis.js): elevated roles always
pass; otherwise the target employee's joined `responde_a_id` must be non-null
and equal to the user's position id.  A falsy (`0`) or missing target id is
rejected up front. -/
def isDirectBossByPuesto (db : OrgDb) (user : User) (targetEmployeeId : Nat) : Bool :=
  if targetEmployeeId = 0 then false
  else if isElevatedRole user then true
  else
    match findEmpleado db targetEmployeeId with
    | none => false
    | some e =>
      match respondeAOfEmpleado db e with
      | none => false
      | some respondeA => respondeA == user.puesto_id

/-- Model of `employeeHasNoDirectBoss` (routes/kpis.js): true when the employee
row is absent or the joined `responde_a_id` is null. -/
def employeeHasNoDirectBoss (db : OrgDb) (employeeId : Nat) : Bool :=
  match findEmpleado db employeeId with
  | none => true
  | some e => (respondeAOfEmpleado db e).isNone

/-- Model of `canAccessEmployeeTree` (routes/kpis.js): admins and managers
always pass, everyone may access themselves, and otherwise the target's
position must be a truthy id inside the user's subordinate-position list. -/
def canAccessEmployeeTree (db : OrgDb) (user : User) (targetEmployeeId : Nat) : Bool :=
  if isElevatedRole user then true
  else if targetEmployeeId = user.id then true
  else
    let subs := buildSubordinatePuestoIds db.puestos.length user.puesto_id db.puestos
    match (findEmpleado db targetEmployeeId).bind (fun e => e.puesto_id) with
    | some p => p != 0 && subs.contains p
    | none => false

/-- Approval rule of `POST /dashboard/visto` (routes/kpis.js): admin/manager
always; self-approval only without a direct boss; otherwise only the direct
boss. -/
def vistoCanApprove (db : OrgDb) (user : User) (targetEmployeeId : Nat) : Bool :=
  if isElevatedRole user then true
  else if targetEmployeeId = user.id then employeeHasNoDirectBoss db user.id
  else isDirectBossByPuesto db user targetEmployeeId

example :
    let db : OrgDb := ⟨[⟨1, some 10⟩, ⟨2, some 20⟩], [⟨10, none⟩, ⟨20, some 10⟩]⟩
    vistoCanApprove db ⟨1, "user", 10⟩ 1 = true ∧
    vistoCanApprove db ⟨2, "user", 20⟩ 2 = false ∧
    vistoCanApprove db ⟨1, "user", 10⟩ 2 = true ∧
    vistoCanApprove db ⟨2, "user", 20⟩ 1 = false := by decide

/-- Key of the `kpi_resultados` upserts: the unique
(employee, KPI, year, month) tuple. -/
structure ResultKey where
  empleado_id : Nat
  kpi_id : Nat
  anio : Nat
  mes : Nat
deriving DecidableEq

/-- Row of `kpi_resultados`; timestamps are abstracted to naturals. -/
structure Resultado where
  valor : Option String
  color : Option String
  comentario : Option String
  visto_bueno : Nat
  visto_por : Option Nat
  visto_fecha : Option Nat
  revision_por : Option Nat
  revision_fecha : Option Nat
  revision_motivo : Option String
deriving DecidableEq

/-- Modelled from the spec: a freshly inserted `kpi_resultados` row starts in
the OPEN state, with no value, no grade, no comment, no approval and no
pending review; the CREATE TABLE statement with the column defaults is not
part of the sources. -/
def freshResultado : Resultado :=
  ⟨none, none, none, 0, none, none, none, none, none⟩

/-- State of the `kpi_resultados` table, one optional row per key. -/
def Store := ResultKey → Option Resultado

/-- Row replacement at one key, the effect of a MySQL upsert on the table. -/
def Store.put (s : Store) (k : ResultKey) (r : Resultado) : Store :=
  fun k' => if k' = k then some r else s k'

/-- Upsert of `POST /dashboard/visto` (routes/kpis.js): set approval with the
actor and timestamp and clear the three review columns; the value, grade and
comment columns are untouched. -/
def vistoUpsert (approver : Nat) (t : Nat) : Option Resultado → Resultado
  | none =>
    { freshResultado with
      visto_bueno := 1, visto_por := some approver, visto_fecha := some t }
  | some r =>
    { r with
      visto_bueno := 1, visto_por := some approver, visto_fecha := some t,
      revision_por := none, revision_fecha := none, revision_motivo := none }

/-- Upsert of `sendToReviewHandler` (routes/kpis.js): clear approval and set
the three review columns. -/
def reviewUpsert (reviewer : Nat) (t : Nat) (motivo : String) : Option Resultado → Resultado
  | none =>
    { freshResultado with
      visto_bueno := 0, revision_por := some reviewer, revision_fecha := some t,
      revision_motivo := some motivo }
  | some r =>
    { r with
      visto_bueno := 0, visto_por := none, visto_fecha := none,
      revision_por := some reviewer, revision_fecha := some t,
      revision_motivo := some motivo }

/-- Value-carrying upsert of `POST /dashboard/save` (routes/kpis.js): write
value, grade and comment, leaving the approval and review columns untouched. -/
def saveValueUpsert (valor : String) (color : Option String) (comentario : Option String) :
    Option Resultado → Resultado
  | none => { freshResultado with valor := some valor, color := color, comentario := comentario }
  | some r => { r with valor := some valor, color := color, comentario := comentario }

/-- Comment-only upsert of `POST /dashboard/save` (routes/kpis.js): write the
comment column only. -/
def saveCommentUpsert (comentario : Option String) : Option Resultado → Resultado
  | none => { freshResultado with comentario := comentario }
  | some r => { r with comentario := comentario }

/-- Record contents reachable from a fresh (absent) row through the three
mutation upserts of the result lifecycle, with arbitrary arguments. -/
inductive ReachableRec : Option Resultado → Prop
  | init : ReachableRec none
  | save_value (r : Option Resultado) (v : String) (c cm : Option String) :
      ReachableRec r → ReachableRec (some (saveValueUpsert v c cm r))
  | save_comment (r : Option Resultado) (cm : Option String) :
      ReachableRec r → ReachableRec (some (saveCommentUpsert cm r))
  | approve (r : Option Resultado) (a t : Nat) :
      ReachableRec r → ReachableRec (some (vistoUpsert a t r))
  | review (r : Option Resultado) (a t : Nat) (m : String) :
      ReachableRec r → ReachableRec (some (reviewUpsert a t m r))

/-- Errors surfaced by the mutation routes (HTTP 400, 404, 403, 423). -/
inductive SaveError where
  | insufficientData
  | kpiNotFound
  | forbidden
  | locked
deriving DecidableEq

/-- Outcome of `POST /dashboard/visto`. -/
structure VistoOutcome where
  res : Except SaveError Unit
  store : Store

/-- Model of `POST /dashboard/visto` (routes/kpis.js): resolve the target
employee (the actor when no `empleado_id` is posted), check the approval rule
and either reject with 403 leaving the table unchanged, or upsert approval. -/
def vistoOp (db : OrgDb) (user : User) (empleadoParam : Option Nat)
    (kpiId anio mes t : Nat) (store : Store) : VistoOutcome :=
  let target := empleadoParam.getD user.id
  if vistoCanApprove db user target then
    let k : ResultKey := ⟨target, kpiId, anio, mes⟩
    ⟨.ok (), store.put k (vistoUpsert user.id t (store k))⟩
  else ⟨.error .forbidden, store⟩

/-- JavaScript truthiness of a nullable numeric id: `null`, `undefined` and
`0` are falsy. -/
def jsTruthyNat (o : Option Nat) : Bool :=
  match o with
  | some n => n != 0
  | none => false

/-- JavaScript `s || null` for a nullable string: the empty string collapses
to `null`. -/
def jsOrNullStr (o : Option String) : Option String :=
  match o with
  | some s => if s = "" then none else some s
  | none => none

/-- Score derived from a manually supplied grade in `POST /dashboard/save`
(routes/kpis.js line 767): the fixed red=40 / yellow=70 / green=100 map. -/
def manualScore (c : String) : Option Nat :=
  if c = "rojo" then some 40
  else if c = "amarillo" then some 70
  else if c = "verde" then some 100
  else none

/-- Rows of the `kpis` table keyed by KPI id. -/
def KpisDb := List (Nat × Kpi)

/-- Lookup `SELECT ... FROM kpis WHERE id = ?`. -/
def findKpi (db : KpisDb) (kid : Nat) : Option Kpi :=
  (db.find? (fun it => it.1 == kid)).map (fun it => it.2)

/-- Request body of `POST /dashboard/save`; missing or null fields are
`none`. -/
structure SaveBody where
  kpi_id : Option Nat
  anio : Option Nat
  mes : Option Nat
  valor : Option String
  color : Option String
  empleado_id : Option Nat
  comentario : Option String

/-- The `hasValue` test of `POST /dashboard/save` (routes/kpis.js line 738):
the value is present and does not trim to the empty string. -/
def saveHasValue (valor : Option String) : Bool :=
  match valor with
  | none => false
  | some s => jsTrim s != ""

/-- Permission guard of `POST /dashboard/save` (routes/kpis.js lines
770-798): editing someone else without an elevated role requires the target's
position to be a truthy id in the actor's subordinate-position list. -/
def savePermOk (db : OrgDb) (user : User) (target : Nat) : Bool :=
  if target != user.id && !(isElevatedRole user) then
    let subs := buildSubordinatePuestoIds db.puestos.length user.puesto_id db.puestos
    match (findEmpleado db target).bind (fun e => e.puesto_id) with
    | some p => p != 0 && subs.contains p
    | none => false
  else true

/-- Lock-override rule of `POST /dashboard/save` (routes/kpis.js lines
810-819): elevated roles, the approver themselves, or an actor whose tree
contains the approver may edit an approved record. -/
def canEditLocked (db : OrgDb) (user : User) (lockedBy : Option Nat) : Bool :=
  if isElevatedRole user then true
  else if jsTruthyNat lockedBy && (lockedBy == some user.id) then true
  else if jsTruthyNat lockedBy then
    match lockedBy with
    | some a => canAccessEmployeeTree db user a
    | none => false
  else false

/-- The lock rejection of `POST /dashboard/save` (routes/kpis.js lines
799-829): the stored row is approved (`visto_bueno = 1`) and the actor may
not override the lock. -/
def saveLockRejected (org : OrgDb) (user : User) (stored : Option Resultado) : Bool :=
  (match stored with | some r => r.visto_bueno == 1 | none => false)
    && !(canEditLocked org user (stored.bind (fun r => r.visto_por)))

/-- Outcome of `POST /dashboard/save`: the JSON reply carries the stored
grade and its score. -/
structure SaveOutcome where
  res : Except SaveError (Option String × Option Nat)
  store : Store

/-- Model of `POST /dashboard/save` (routes/kpis.js): validate the body, load
the KPI, derive grade and score (manual grade override or `scoreKpi`),
resolve the target employee, check tree permission, check the approval lock,
and upsert either value+grade+comment or comment only. -/
def saveOp (org : OrgDb) (kpis : KpisDb) (user : User) (body : SaveBody)
    (store : Store) : SaveOutcome :=
  match body.kpi_id, body.anio, body.mes with
  | some kpiId, some anio, some mes =>
    let hasValue := saveHasValue body.valor
    (match findKpi kpis kpiId with
    | none => ⟨.error .kpiNotFound, store⟩
    | some kpi =>
      let manualColor := jsOrNullStr body.color
      let scored :=
        if hasValue then
          match manualColor with
          | none =>
            let r := scoreKpi (some kpi)
              (match body.valor with | some s => JSVal.vstr s | none => JSVal.vnull)
            (r.color, r.score)
          | some c => (some c, manualScore c)
        else (manualColor, (none : Option Nat))
      let target := body.empleado_id.getD user.id
      if !savePermOk org user target then ⟨.error .forbidden, store⟩
      else
        let k : ResultKey := ⟨target, kpiId, anio, mes⟩
        if saveLockRejected org user (store k) then ⟨.error .locked, store⟩
        else if hasValue then
          ⟨.ok scored,
           store.put k (saveValueUpsert (body.valor.getD "") scored.1
             (jsOrNullStr body.comentario) (store k))⟩
        else
          ⟨.ok scored,
           store.put k (saveCommentUpsert (jsOrNullStr body.comentario) (store k))⟩)
  | _, _, _ => ⟨.error .insufficientData, store⟩

/-- Calendar date as read from a JavaScript `Date` (`getFullYear`,
`getMonth()+1`, `getDate`). -/
structure SimpleDate where
  year : Int
  month : Nat
  day : Nat
deriving DecidableEq

/-- Reporting period (year, month 1-12). -/
structure Period where
  year : Int
  month : Nat
deriving DecidableEq

/-- Model of `getDefaultPeriod` (routes/kpis.js): during the first ten days
of a month the default period is the previous month, rolling the year
backward across January; later days keep the current month. -/
def getDefaultPeriod (now : SimpleDate) : Period :=
  let year := now.year
  let month := now.month
  if now.day ≤ 10 then
    let m := month - 1
    if m < 1 then ⟨year - 1, 12⟩ else ⟨year, m⟩
  else ⟨year, month⟩

/-- Model of `scoreFromColor` (routes/kpis.js): the fixed grade-to-score map
used by the Excel export. -/
def scoreFromColor (color : String) : Option Nat :=
  if color = "rojo" then some 40
  else if color = "amarillo" then some 70
  else if color = "verde" then some 100
  else none

/-- Score derived from a nullable persisted grade by the fixed red=40 /
yellow=70 / green=100 map. -/
def scoreFromColorOpt (c : Option String) : Option Nat :=
  match c with
  | some c => scoreFromColor c
  | none => none

/-- Model of `normalizeColor` (routes/kpis.js): lower-case, trim, and map the
English color names onto the Spanish ones. -/
def normalizeColor (color : Option String) : String :=
  let c := jsToLower (jsTrim (jsOrStr color ""))
  if c = "red" then "rojo"
  else if c = "yellow" then "amarillo"
  else if c = "green" then "verde"
  else c

/-- Row of `puesto_kpis`: a KPI assigned to a position with a weight. -/
structure PuestoKpiRow where
  puesto_id : Nat
  kpi_id : Nat
  peso : Rat
deriving DecidableEq

/-- Weight of one submitted raw value in `POST /puestos/:id` (server.js lines
363-364): `parseFloat` after turning one decimal comma into a dot, with
unparseable values coerced to `0`. -/
def pesoOfRaw (raw : String) : Rat :=
  match parseFloat (replaceFirst raw "," ".") with
  | some n => n
  | none => 0

/-- Accumulated weight total of `POST /puestos/:id` (server.js lines
338-367). -/
def totalPeso (items : List (Nat × String)) : Rat :=
  items.foldl (fun acc it => acc + pesoOfRaw it.2) 0

/-- Outcome of the weight-assignment write. -/
structure AssignOutcome where
  ok : Bool
  rows : List PuestoKpiRow

/-- Model of the write phase of `POST /puestos/:id` (server.js lines
336-391): reject when the weight total strays from 100 by more than 0.01,
otherwise delete the position's previous assignments and insert the submitted
ones.  `items` pairs each (deduplicated) submitted KPI id with its raw weight
string. -/
def updatePuestoKpis (rows : List PuestoKpiRow) (puestoId : Nat)
    (items : List (Nat × String)) : AssignOutcome :=
  let total := totalPeso items
  if |total - 100| > 1 / 100 then ⟨false, rows⟩
  else
    ⟨true,
     rows.filter (fun r => r.puesto_id != puestoId)
       ++ items.map (fun it => ⟨puestoId, it.1, pesoOfRaw it.2⟩)⟩

/-- Stored weight total of one position. -/
def pesoSumFor (rows : List PuestoKpiRow) (puestoId : Nat) : Rat :=
  ((rows.filter (fun r => r.puesto_id == puestoId)).map (fun r => r.peso)).sum

/-- Weighted contribution of one workbook row (routes/kpis.js lines
1243-1251): filled only when the weight parses and the score is a number, as
`score * weight / 100`; otherwise the cell stays empty. -/
def puntajePonderado (peso : JSVal) (puntaje : Option Nat) : Option Rat :=
  match toNumberOrNull peso, puntaje with
  | some w, some s => some ((s : Rat) * (w / 100))
  | _, _ => none

/-- Modelled from the spec: the WeightedAggregator of §4.6 sums the per-entry
contributions `score × weight/100` into the position-level total and reports
entries with a null score or an unparseable weight as missing instead of
counting them as zero.  The summation itself is not a function of the
sources; the workbook builder only emits the per-row contributions computed
by `puntajePonderado`. -/
def aggregateResults (results : List (Option Nat × JSVal)) : Rat × Nat :=
  results.foldl
    (fun acc r =>
      match puntajePonderado r.2 r.1 with
      | some c => (acc.1 + c, acc.2)
      | none => (acc.1, acc.2 + 1))
    (0, 0)

/-- Downward chain below a position: `PuestoChain m t l` holds when the first
element of `l` is the id of a position reporting directly to `t` and every
later element is the id of a position reporting directly to its
predecessor. -/
def PuestoChain (m : List Puesto) : Nat → List Nat → Prop
  | _, [] => True
  | t, a :: rest => (∃ p ∈ m, p.id = a ∧ p.responde_a_id = some t) ∧ PuestoChain m a rest

/-- Claim-side reading of subordination: the chain of superiors of a
position, followed upward via `responde_a_id`, eventually reaches `t`. -/
inductive ReportsUp (m : List Puesto) : Nat → Nat → Prop
  | direct (t : Nat) (p : Puesto) : p ∈ m → p.responde_a_id = some t →
      ReportsUp m p.id t
  | step (t : Nat) (p : Puesto) (mid : Nat) : p ∈ m → p.responde_a_id = some mid →
      ReportsUp m mid t → ReportsUp m p.id t

/-- The trimmed string form of a raw captured value used by CRITERION
matching (`rawValue === null ? '' : String(rawValue).trim()`). -/
def criterionValue : JSVal → String
  | .vnull => ""
  | w => jsTrim (jsString w)

/-- C1: for every KPI of score type NUMBER or PERCENT whose two thresholds
parse as numbers and every raw value parsing as `n`, direction HIGHER_BETTER
grades green/100 iff `n ≥` green threshold, else yellow/70 iff `n ≥` yellow
threshold, else red/40; direction LOWER_BETTER is the same with `≤`.  Both
boundaries are inclusive and green is tested before yellow. -/
theorem c1_scoreKpi_thresholds (kpi : Kpi) (v : JSVal) (n ty tg : Rat)
    (hst : jsToUpper (jsOrStr kpi.score_type "") = "NUMBER" ∨
           jsToUpper (jsOrStr kpi.score_type "") = "PERCENT")
    (hn : toNumberOrNull v = some n)
    (hty : toNumberOrNull kpi.threshold_yellow = some ty)
    (htg : toNumberOrNull kpi.threshold_green = some tg) :
    (jsToUpper (jsOrStr kpi.direction "HIGHER_BETTER") = "HIGHER_BETTER" →
      scoreKpi (some kpi) v =
        (if n ≥ tg then ⟨some "verde", some 100, none⟩
         else if n ≥ ty then ⟨some "amarillo", some 70, none⟩
         else ⟨some "rojo", some 40, none⟩ : ScoreResult))
    ∧ (jsToUpper (jsOrStr kpi.direction "HIGHER_BETTER") = "LOWER_BETTER" →
      scoreKpi (some kpi) v =
        (if n ≤ tg then ⟨some "verde", some 100, none⟩
         else if n ≤ ty then ⟨some "amarillo", some 70, none⟩
         else ⟨some "rojo", some 40, none⟩ : ScoreResult)) := by
  have hne : ¬(jsToUpper (jsOrStr kpi.score_type "") = "CRITERION") := by
    rcases hst with h | h <;> rw [h] <;> decide
  constructor
  · intro hdir
    simp only [scoreKpi, if_neg hne, hn, hty, htg, if_pos hdir]
  · intro hdir
    have hne2 : ¬(jsToUpper (jsOrStr kpi.direction "HIGHER_BETTER") = "HIGHER_BETTER") := by
      rw [hdir]; decide
    simp only [scoreKpi, if_neg hne, hn, hty, htg, if_neg hne2]

/-- Witness for C1 at a concrete KPI: value 90 against thresholds 70/90,
HIGHER_BETTER, lands exactly on the inclusive green boundary. -/
theorem c1_scoreKpi_thresholds_witness :
    scoreKpi (some ⟨some "NUMBER", some "HIGHER_BETTER", .vstr "70", .vstr "90",
      none, none, none⟩) (.vstr "90") = ⟨some "verde", some 100, none⟩ := by
  have h := c1_scoreKpi_thresholds
    ⟨some "NUMBER", some "HIGHER_BETTER", .vstr "70", .vstr "90", none, none, none⟩
    (.vstr "90") 90 70 90 (Or.inl rfl) rfl rfl rfl
  rw [h.1 rfl]
  decide

/-- C2: for every CRITERION KPI the trimmed value is compared, case
sensitively, against the trimmed criterion strings in the priority order
green, yellow, red, the first configured match winning (100/70/40); with no
criterion configured the result is grade none, reason "Sin criterios
definidos", and a value matching no configured criterion gives grade none,
reason "Valor no coincide con criterio" rather than a default red. -/
theorem c2_scoreKpi_criterion (kpi : Kpi) (v : JSVal)
    (hst : jsToUpper (jsOrStr kpi.score_type "") = "CRITERION") :
    ((jsTrim (jsOrStr kpi.criterion_red "") = "" ∧
      jsTrim (jsOrStr kpi.criterion_yellow "") = "" ∧
      jsTrim (jsOrStr kpi.criterion_green "") = "") →
      scoreKpi (some kpi) v = ⟨none, none, some "Sin criterios definidos"⟩)
    ∧ (jsTrim (jsOrStr kpi.criterion_green "") ≠ "" →
       criterionValue v = jsTrim (jsOrStr kpi.criterion_green "") →
      scoreKpi (some kpi) v = ⟨some "verde", some 100, none⟩)
    ∧ ((jsTrim (jsOrStr kpi.criterion_green "") = "" ∨
        criterionValue v ≠ jsTrim (jsOrStr kpi.criterion_green "")) →
       jsTrim (jsOrStr kpi.criterion_yellow "") ≠ "" →
       criterionValue v = jsTrim (jsOrStr kpi.criterion_yellow "") →
      scoreKpi (some kpi) v = ⟨some "amarillo", some 70, none⟩)
    ∧ ((jsTrim (jsOrStr kpi.criterion_green "") = "" ∨
        criterionValue v ≠ jsTrim (jsOrStr kpi.criterion_green "")) →
       (jsTrim (jsOrStr kpi.criterion_yellow "") = "" ∨
        criterionValue v ≠ jsTrim (jsOrStr kpi.criterion_yellow "")) →
       jsTrim (jsOrStr kpi.criterion_red "") ≠ "" →
       criterionValue v = jsTrim (jsOrStr kpi.criterion_red "") →
      scoreKpi (some kpi) v = ⟨some "rojo", some 40, none⟩)
    ∧ (¬(jsTrim (jsOrStr kpi.criterion_red "") = "" ∧
         jsTrim (jsOrStr kpi.criterion_yellow "") = "" ∧
         jsTrim (jsOrStr kpi.criterion_green "") = "") →
       (jsTrim (jsOrStr kpi.criterion_green "") = "" ∨
        criterionValue v ≠ jsTrim (jsOrStr kpi.criterion_green "")) →
       (jsTrim (jsOrStr kpi.criterion_yellow "") = "" ∨
        criterionValue v ≠ jsTrim (jsOrStr kpi.criterion_yellow "")) →
       (jsTrim (jsOrStr kpi.criterion_red "") = "" ∨
        criterionValue v ≠ jsTrim (jsOrStr kpi.criterion_red "")) →
      scoreKpi (some kpi) v = ⟨none, none, some "Valor no coincide con criterio"⟩) := by
  have hv : (match v with
      | .vnull => ""
      | w => jsTrim (jsString w)) = criterionValue v := by
    cases v <;> rfl
  refine ⟨fun h0 => ?_, fun hg hvg => ?_, fun hng hy hvy => ?_,
    fun hng hny hr hvr => ?_, fun h0 hng hny hnr => ?_⟩
  · simp only [scoreKpi, if_pos hst, hv]
    rw [if_pos ⟨h0.1, h0.2.1, h0.2.2⟩]
  · simp only [scoreKpi, if_pos hst, hv]
    rw [if_neg (by intro h; exact hg h.2.2), if_pos ⟨hg, hvg⟩]
  · simp only [scoreKpi, if_pos hst, hv]
    rw [if_neg (by intro h; exact hy h.2.1),
      if_neg (by intro h; rcases hng with h' | h'; exact h.1 h'; exact h' h.2),
      if_pos ⟨hy, hvy⟩]
  · simp only [scoreKpi, if_pos hst, hv]
    rw [if_neg (by intro h; exact hr h.1),
      if_neg (by intro h; rcases hng with h' | h'; exact h.1 h'; exact h' h.2),
      if_neg (by intro h; rcases hny with h' | h'; exact h.1 h'; exact h' h.2),
      if_pos ⟨hr, hvr⟩]
  · simp only [scoreKpi, if_pos hst, hv]
    rw [if_neg h0,
      if_neg (by intro h; rcases hng with h' | h'; exact h.1 h'; exact h' h.2),
      if_neg (by intro h; rcases hny with h' | h'; exact h.1 h'; exact h' h.2),
      if_neg (by intro h; rcases hnr with h' | h'; exact h.1 h'; exact h' h.2)]

/-- Witness for C2 at a concrete CRITERION KPI: a green match and an
unmatched value. -/
theorem c2_scoreKpi_criterion_witness :
    scoreKpi (some ⟨some "CRITERION", none, .vnull, .vnull,
      some "malo", some "regular", some "bueno"⟩) (.vstr " bueno ") =
      ⟨some "verde", some 100, none⟩ ∧
    scoreKpi (some ⟨some "CRITERION", none, .vnull, .vnull,
      some "malo", some "regular", some "bueno"⟩) (.vstr "otro") =
      ⟨none, none, some "Valor no coincide con criterio"⟩ := by
  constructor
  · exact (c2_scoreKpi_criterion
      ⟨some "CRITERION", none, .vnull, .vnull, some "malo", some "regular", some "bueno"⟩
      (.vstr " bueno ") rfl).2.1 (by decide) (by decide)
  · exact (c2_scoreKpi_criterion
      ⟨some "CRITERION", none, .vnull, .vnull, some "malo", some "regular", some "bueno"⟩
      (.vstr "otro") rfl).2.2.2.2 (by decide) (by decide) (by decide) (by decide)

/-- C6: the default period is the previous calendar month while the day of
month is at most 10, rolling the year backward across January, and the
current month from day 11 on; the function is a pure function of `now`. -/
theorem c6_getDefaultPeriod_rule (now : SimpleDate) :
    (now.day ≤ 10 → now.month = 1 → getDefaultPeriod now = ⟨now.year - 1, 12⟩)
    ∧ (now.day ≤ 10 → 2 ≤ now.month → getDefaultPeriod now = ⟨now.year, now.month - 1⟩)
    ∧ (10 < now.day → getDefaultPeriod now = ⟨now.year, now.month⟩) := by
  refine ⟨fun h1 h2 => ?_, fun h1 h2 => ?_, fun h1 => ?_⟩
  · simp [getDefaultPeriod, h1, h2]
  · have hm : ¬(now.month - 1 < 1) := by omega
    simp [getDefaultPeriod, h1, hm]
  · have hd : ¬(now.day ≤ 10) := by omega
    simp [getDefaultPeriod, hd]

/-- Witness for C6: day 10 of March 2025 gives February 2025, day 11 gives
March 2025, and January 1st gives December of the previous year. -/
theorem c6_getDefaultPeriod_rule_witness :
    getDefaultPeriod ⟨2025, 3, 10⟩ = ⟨2025, 2⟩ ∧
    getDefaultPeriod ⟨2025, 3, 11⟩ = ⟨2025, 3⟩ ∧
    getDefaultPeriod ⟨2025, 1, 1⟩ = ⟨2024, 12⟩ := by
  refine ⟨(c6_getDefaultPeriod_rule ⟨2025, 3, 10⟩).2.1 (by decide) (by decide), 
    (c6_getDefaultPeriod_rule ⟨2025, 3, 11⟩).2.2 (by decide), ?_⟩
  have h := (c6_getDefaultPeriod_rule ⟨2025, 1, 1⟩).1 (by decide) (by decide)
  simpa using h

/-- C10: in every record state reachable from a fresh row through the
capture, approve and send-to-review upserts, an approved record
(`visto_bueno = 1`) has all three review columns null: approval clears the
review columns, review clears approval, and captures touch neither group. -/
theorem c10_visto_excludes_review (o : Option Resultado) (h : ReachableRec o) :
    ∀ rec, o = some rec → rec.visto_bueno = 1 →
      rec.revision_por = none ∧ rec.revision_fecha = none ∧ rec.revision_motivo = none := by
  induction h with
  | init => intro rec hrec; exact absurd hrec (by simp)
  | save_value r v c cm _ ih =>
    intro rec hrec hvb
    obtain rfl : saveValueUpsert v c cm r = rec := by injection hrec
    cases r with
    | none => simp [saveValueUpsert, freshResultado] at hvb
    | some r0 =>
      have := ih r0 rfl (by simpa [saveValueUpsert] using hvb)
      simpa [saveValueUpsert] using this
  | save_comment r cm _ ih =>
    intro rec hrec hvb
    obtain rfl : saveCommentUpsert cm r = rec := by injection hrec
    cases r with
    | none => simp [saveCommentUpsert, freshResultado] at hvb
    | some r0 =>
      have := ih r0 rfl (by simpa [saveCommentUpsert] using hvb)
      simpa [saveCommentUpsert] using this
  | approve r a t _ _ =>
    intro rec hrec _
    obtain rfl : vistoUpsert a t r = rec := by injection hrec
    cases r <;> simp [vistoUpsert, freshResultado]
  | review r a t m _ _ =>
    intro rec hrec hvb
    obtain rfl : reviewUpsert a t m r = rec := by injection hrec
    cases r <;> simp [reviewUpsert, freshResultado] at hvb

/-- Witness for C10: approving after a review request yields a record with
approval set and all review columns cleared. -/
theorem c10_visto_excludes_review_witness :
    (vistoUpsert 5 3 (some (reviewUpsert 4 2 "razon" none))).revision_por = none ∧
    (vistoUpsert 5 3 (some (reviewUpsert 4 2 "razon" none))).revision_motivo = none := by
  have h := c10_visto_excludes_review
    (some (vistoUpsert 5 3 (some (reviewUpsert 4 2 "razon" none))))
    (.approve _ 5 3 (.review _ 4 2 "razon" .init))
    (vistoUpsert 5 3 (some (reviewUpsert 4 2 "razon" none))) rfl rfl
  exact ⟨h.1, h.2.2⟩

/-- Unfolding of the aggregation fold: the first component accumulates the
contributions present, the second counts the missing entries. -/
theorem aggregateResults_foldl (rs : List (Option Nat × JSVal)) :
    ∀ acc : Rat × Nat,
      rs.foldl (fun acc r =>
        match puntajePonderado r.2 r.1 with
        | some c => (acc.1 + c, acc.2)
        | none => (acc.1, acc.2 + 1)) acc
      = (acc.1 + (rs.map (fun r => (puntajePonderado r.2 r.1).getD 0)).sum,
         acc.2 + (rs.filter (fun r => (puntajePonderado r.2 r.1).isNone)).length) := by
  induction rs with
  | nil => intro acc; simp
  | cons hd tl ih =>
    intro acc
    rw [List.foldl_cons]
    cases hpp : puntajePonderado hd.2 hd.1 with
    | some c =>
      rw [ih]
      simp [hpp, add_assoc]
    | none =>
      rw [ih]
      simp [hpp]
      omega

/-- C9: in the weighted aggregation every entry whose score is present and
whose weight parses contributes exactly `score * weight / 100`; an entry with
a null score or an unparseable weight contributes nothing and is counted as
missing instead of being treated as zero; the total is the sum of the present
contributions, and the two-entry example sums to exactly 76. -/
theorem c9_weighted_aggregation :
    (∀ (w : JSVal) (pv : Rat) (s : Nat), toNumberOrNull w = some pv →
      puntajePonderado w (some s) = some ((s : Rat) * (pv / 100)))
    ∧ (∀ w : JSVal, puntajePonderado w none = none)
    ∧ (∀ (w : JSVal) (s : Option Nat), toNumberOrNull w = none →
        puntajePonderado w s = none)
    ∧ (∀ rs : List (Option Nat × JSVal),
        aggregateResults rs =
          ((rs.map (fun r => (puntajePonderado r.2 r.1).getD 0)).sum,
           (rs.filter (fun r => (puntajePonderado r.2 r.1).isNone)).length))
    ∧ aggregateResults [(some 100, .vnum 60), (some 40, .vnum 40)] = (76, 0) := by
  refine ⟨?_, ?_, ?_, ?_, ?_⟩
  · intro w pv s h
    simp [puntajePonderado, h]
  · intro w
    unfold puntajePonderado
    cases toNumberOrNull w <;> rfl
  · intro w s h
    unfold puntajePonderado
    rw [h]
  · intro rs
    unfold aggregateResults
    rw [aggregateResults_foldl]
    simp
  · unfold aggregateResults
    rw [aggregateResults_foldl]
    have h1 : puntajePonderado (JSVal.vnum 60) (some 100) = some 60 := by
      simp [puntajePonderado, toNumberOrNull]
      norm_num
    have h2 : puntajePonderado (JSVal.vnum 40) (some 40) = some 16 := by
      simp [puntajePonderado, toNumberOrNull]
      norm_num
    simp [h1, h2]
    norm_num

/-- Witness for C9: the contribution of a parsed weight applied at a concrete
entry, and the two-entry example total. -/
theorem c9_weighted_aggregation_witness :
    puntajePonderado (.vnum 60) (some 100) = some ((100 : Rat) * (60 / 100)) ∧
    aggregateResults [(some 100, .vnum 60), (some 40, .vnum 40)] = (76, 0) :=
  ⟨c9_weighted_aggregation.1 (.vnum 60) 60 100 rfl, c9_weighted_aggregation.2.2.2.2⟩

/-- Unfolding of the weight-total fold. -/
theorem totalPeso_foldl (items : List (Nat × String)) :
    ∀ acc : Rat, items.foldl (fun acc it => acc + pesoOfRaw it.2) acc
      = acc + (items.map (fun it => pesoOfRaw it.2)).sum := by
  induction items with
  | nil => intro acc; simp
  | cons hd tl ih =>
    intro acc
    rw [List.foldl_cons, ih]
    simp [add_assoc]

/-- The weight total is the sum of the parsed weights. -/
theorem totalPeso_eq_sum (items : List (Nat × String)) :
    totalPeso items = (items.map (fun it => pesoOfRaw it.2)).sum := by
  unfold totalPeso
  rw [totalPeso_foldl]
  simp

/-- After a successful assignment write the stored weight total of the
position equals the submitted total. -/
theorem pesoSumFor_update (rows : List PuestoKpiRow) (puestoId : Nat)
    (items : List (Nat × String)) :
    pesoSumFor (rows.filter (fun r => r.puesto_id != puestoId)
      ++ items.map (fun it => ⟨puestoId, it.1, pesoOfRaw it.2⟩)) puestoId
    = totalPeso items := by
  unfold pesoSumFor
  rw [List.filter_append]
  have h1 : (rows.filter (fun r => r.puesto_id != puestoId)).filter
      (fun r => r.puesto_id == puestoId) = [] := by
    induction rows with
    | nil => rfl
    | cons hd tl ih =>
      by_cases h : hd.puesto_id = puestoId
      · simp [List.filter_cons, h, ih]
      · simp [List.filter_cons, h, ih]
  have h2 : (items.map (fun it => (⟨puestoId, it.1, pesoOfRaw it.2⟩ : PuestoKpiRow))).filter
      (fun r => r.puesto_id == puestoId)
      = items.map (fun it => (⟨puestoId, it.1, pesoOfRaw it.2⟩ : PuestoKpiRow)) := by
    induction items with
    | nil => rfl
    | cons hd tl ih => simp [List.filter_cons, ih]
  rw [h1, h2, List.nil_append, List.map_map, totalPeso_eq_sum]
  rfl

/-- C8: a KPI-weight assignment set is accepted exactly when the submitted
total strays from 100 by at most 0.01; a rejected submission leaves the
stored rows unchanged, and an accepted one replaces the position's rows so
that their stored weight total is the submitted total, hence within 0.01 of
100. -/
theorem c8_weight_sum_invariant (rows : List PuestoKpiRow) (puestoId : Nat)
    (items : List (Nat × String)) :
    ((updatePuestoKpis rows puestoId items).ok = true ↔
      |totalPeso items - 100| ≤ 1 / 100)
    ∧ ((updatePuestoKpis rows puestoId items).ok = false →
        (updatePuestoKpis rows puestoId items).rows = rows)
    ∧ ((updatePuestoKpis rows puestoId items).ok = true →
        pesoSumFor (updatePuestoKpis rows puestoId items).rows puestoId = totalPeso items
        ∧ |pesoSumFor (updatePuestoKpis rows puestoId items).rows puestoId - 100| ≤ 1 / 100) := by
  unfold updatePuestoKpis
  by_cases h : |totalPeso items - 100| > 1 / 100
  · rw [if_pos h]
    exact ⟨⟨fun hfalse => by simp at hfalse, fun hle => absurd hle (not_le.mpr h)⟩,
      fun _ => rfl, fun hfalse => by simp at hfalse⟩
  · rw [if_neg h]
    refine ⟨by simpa using not_lt.mp h, fun hfalse => by simp at hfalse, fun _ => ?_⟩
    rw [pesoSumFor_update]
    exact ⟨rfl, not_lt.mp h⟩

/-- Witness for C8: weights 60 and 40 sum to 100 and are accepted, and the
stored total equals the submitted total. -/
theorem c8_weight_sum_invariant_witness :
    (updatePuestoKpis [] 1 [(1, "60"), (2, "40")]).ok = true ∧
    pesoSumFor (updatePuestoKpis [] 1 [(1, "60"), (2, "40")]).rows 1 =
      totalPeso [(1, "60"), (2, "40")] := by
  have htot : |totalPeso [(1, "60"), (2, "40")] - 100| ≤ 1 / 100 := by
    have h100 : totalPeso [(1, "60"), (2, "40")] = 100 := by
      simp only [totalPeso, List.foldl, Rat.add_def']
      decide
    rw [h100, sub_self, abs_zero]
    exact div_nonneg (by decide) (by decide)
  have h := c8_weight_sum_invariant [] 1 [(1, "60"), (2, "40")]
  exact ⟨h.1.mpr htot, (h.2.2 (h.1.mpr htot)).1⟩

/-- The no-direct-boss check is the nullity of the joined `responde_a_id`. -/
theorem employeeHasNoDirectBoss_eq (db : OrgDb) (e : Nat) :
    employeeHasNoDirectBoss db e = (respondeAOfTarget db e).isNone := by
  unfold employeeHasNoDirectBoss respondeAOfTarget
  cases findEmpleado db e <;> rfl

/-- For a non-elevated user the direct-boss check is exactly the equality of
the target's joined `responde_a_id` with the user's position, provided no
employee row carries the falsy id `0`. -/
theorem isDirectBoss_iff (db : OrgDb) (user : User) (target : Nat)
    (h0 : findEmpleado db 0 = none) (hne : isElevatedRole user = false) :
    (isDirectBossByPuesto db user target = true ↔
      respondeAOfTarget db target = some user.puesto_id) := by
  unfold isDirectBossByPuesto
  by_cases ht : target = 0
  · subst ht
    rw [if_pos rfl]
    unfold respondeAOfTarget
    rw [h0]
    simp
  · rw [if_neg ht, hne]
    unfold respondeAOfTarget
    cases hfe : findEmpleado db target with
    | none => simp
    | some e =>
      cases hra : respondeAOfEmpleado db e with
      | none => simp [hra]
      | some ra => simp [hra, beq_iff_eq]

/-- The approval rule of `POST /dashboard/visto` in claim form: elevated role,
or the target's position reports directly to the actor's position, or
self-approval of an employee whose joined `responde_a_id` is null.  Requires
that ids are never the falsy `0` and that the actor's own record does not
report to the actor's own position (no position reports to itself on
consistent, acyclic data). -/
theorem vistoCanApprove_iff (db : OrgDb) (user : User) (target : Nat)
    (h0 : findEmpleado db 0 = none)
    (hnc : respondeAOfTarget db user.id ≠ some user.puesto_id) :
    (vistoCanApprove db user target = true ↔
      (isElevatedRole user = true
        ∨ respondeAOfTarget db target = some user.puesto_id
        ∨ (target = user.id ∧ respondeAOfTarget db target = none))) := by
  unfold vistoCanApprove
  by_cases he : isElevatedRole user
  · simp [he]
  · have he' : isElevatedRole user = false := by simpa using he
    by_cases hb : target = user.id
    · rw [if_neg (by simp [he']), if_pos hb, hb, employeeHasNoDirectBoss_eq]
      cases hra : respondeAOfTarget db user.id with
      | none => simp [hra, he']
      | some ra =>
        have hne2 : ¬(some ra = some user.puesto_id) := by rw [← hra]; exact hnc
        simp [hra, he', hne2]
    · rw [if_neg (by simp [he']), if_neg hb]
      rw [isDirectBoss_iff db user target h0 he']
      simp [he', hb]

/-- C3: the approve operation succeeds exactly for an elevated actor, the
direct boss of the target, or a self-approval by a target whose position has
no superior; in every other case — in particular self-approval with a direct
boss — it fails as forbidden and the result table is unchanged.  Hypotheses:
no employee row has the falsy id `0`, and the actor's own joined
`responde_a_id` is not the actor's own position (no self-reporting position
on acyclic data). -/
theorem c3_visto_authorization (db : OrgDb) (user : User) (empleadoParam : Option Nat)
    (kpiId anio mes t : Nat) (store : Store)
    (h0 : findEmpleado db 0 = none)
    (hnc : respondeAOfTarget db user.id ≠ some user.puesto_id) :
    ((vistoOp db user empleadoParam kpiId anio mes t store).res = .ok () ↔
      (isElevatedRole user = true
        ∨ respondeAOfTarget db (empleadoParam.getD user.id) = some user.puesto_id
        ∨ (empleadoParam.getD user.id = user.id
            ∧ respondeAOfTarget db (empleadoParam.getD user.id) = none)))
    ∧ (¬(isElevatedRole user = true
        ∨ respondeAOfTarget db (empleadoParam.getD user.id) = some user.puesto_id
        ∨ (empleadoParam.getD user.id = user.id
            ∧ respondeAOfTarget db (empleadoParam.getD user.id) = none)) →
        (vistoOp db user empleadoParam kpiId anio mes t store).res = .error .forbidden
        ∧ (vistoOp db user empleadoParam kpiId anio mes t store).store = store) := by
  have hiff := vistoCanApprove_iff db user (empleadoParam.getD user.id) h0 hnc
  constructor
  · unfold vistoOp
    by_cases hc : vistoCanApprove db user (empleadoParam.getD user.id)
    · rw [if_pos hc]
      exact iff_of_true rfl (hiff.mp hc)
    · rw [if_neg hc]
      exact iff_of_false (by simp) (fun hauth => hc (hiff.mpr hauth))
  · intro hnauth
    have hc : ¬(vistoCanApprove db user (empleadoParam.getD user.id) = true) :=
      fun htrue => hnauth (hiff.mp htrue)
    unfold vistoOp
    rw [if_neg hc]
    exact ⟨rfl, rfl⟩

/-- Witness for C3: in a two-level hierarchy the direct boss approves a
subordinate; the subordinate can neither approve themselves (their position
has a superior) nor their boss, while the root employee self-approves. -/
theorem c3_visto_authorization_witness :
    (vistoOp ⟨[⟨1, some 10⟩, ⟨2, some 20⟩], [⟨10, none⟩, ⟨20, some 10⟩]⟩
      ⟨1, "user", 10⟩ (some 2) 7 2025 5 0 (fun _ => none)).res = .ok () ∧
    (vistoOp ⟨[⟨1, some 10⟩, ⟨2, some 20⟩], [⟨10, none⟩, ⟨20, some 10⟩]⟩
      ⟨2, "user", 20⟩ none 7 2025 5 0 (fun _ => none)).res = .error .forbidden ∧
    (vistoOp ⟨[⟨1, some 10⟩, ⟨2, some 20⟩], [⟨10, none⟩, ⟨20, some 10⟩]⟩
      ⟨1, "user", 10⟩ none 7 2025 5 0 (fun _ => none)).res = .ok () := by
  refine ⟨?_, ?_, ?_⟩
  · exact (c3_visto_authorization
      ⟨[⟨1, some 10⟩, ⟨2, some 20⟩], [⟨10, none⟩, ⟨20, some 10⟩]⟩
      ⟨1, "user", 10⟩ (some 2) 7 2025 5 0 (fun _ => none)
      rfl (by decide)).1.mpr (Or.inr (Or.inl (by decide)))
  · exact ((c3_visto_authorization
      ⟨[⟨1, some 10⟩, ⟨2, some 20⟩], [⟨10, none⟩, ⟨20, some 10⟩]⟩
      ⟨2, "user", 20⟩ none 7 2025 5 0 (fun _ => none)
      rfl (by decide)).2 (by decide)).1
  · exact (c3_visto_authorization
      ⟨[⟨1, some 10⟩, ⟨2, some 20⟩], [⟨10, none⟩, ⟨20, some 10⟩]⟩
      ⟨1, "user", 10⟩ none 7 2025 5 0 (fun _ => none)
      rfl (by decide)).1.mpr (Or.inr (Or.inr (by decide)))

/-- The lock-override rule in claim form: elevated role, or the stored
approver exists and is the actor or lies within the actor's accessible tree.
Requires the stored approver id not to be the falsy `0` (AUTO_INCREMENT ids
start at 1). -/
theorem canEditLocked_iff (org : OrgDb) (user : User) (lockedBy : Option Nat)
    (hvp : lockedBy ≠ some 0) :
    (canEditLocked org user lockedBy = true ↔
      (isElevatedRole user = true
        ∨ ∃ a, lockedBy = some a ∧
            (user.id = a ∨ canAccessEmployeeTree org user a = true))) := by
  unfold canEditLocked
  by_cases he : isElevatedRole user
  · simp [he]
  · have he' : isElevatedRole user = false := by simpa using he
    cases lockedBy with
    | none => simp [he', jsTruthyNat]
    | some a =>
      have ha0 : a ≠ 0 := fun h => hvp (by rw [h])
      by_cases hid : a = user.id
      · subst hid
        simp [he', jsTruthyNat, ha0]
      · have hid' : ¬(user.id = a) := fun h => hid h.symm
        simp [he', jsTruthyNat, ha0, hid, hid']

/-- C4: a capture against an APPROVED record is rejected with the Locked
error — leaving the table unchanged — exactly when the actor is not elevated,
is not the stored approver, and does not have the approver inside the
accessible tree; any one of the three conditions permits the write.
Hypotheses: the body carries KPI id, year and month, the KPI exists, the
target-tree permission passes, the stored row is approved, and the stored
approver id is not the falsy `0`. -/
theorem c4_save_locked_override (org : OrgDb) (kpis : KpisDb) (user : User)
    (body : SaveBody) (store : Store) (kpiId anio mes : Nat) (kpi : Kpi) (rrec : Resultado)
    (hk : body.kpi_id = some kpiId) (ha : body.anio = some anio) (hm : body.mes = some mes)
    (hkpi : findKpi kpis kpiId = some kpi)
    (hperm : savePermOk org user (body.empleado_id.getD user.id) = true)
    (hr : store ⟨body.empleado_id.getD user.id, kpiId, anio, mes⟩ = some rrec)
    (happ : rrec.visto_bueno = 1)
    (hvp : rrec.visto_por ≠ some 0) :
    ((saveOp org kpis user body store).res = .error .locked ↔
      ¬(isElevatedRole user = true
        ∨ ∃ a, rrec.visto_por = some a ∧
            (user.id = a ∨ canAccessEmployeeTree org user a = true)))
    ∧ ((saveOp org kpis user body store).res = .error .locked →
        (saveOp org kpis user body store).store = store) := by
  have hcond := canEditLocked_iff org user rrec.visto_por hvp
  have hlr : saveLockRejected org user
      (store ⟨body.empleado_id.getD user.id, kpiId, anio, mes⟩)
      = !(canEditLocked org user rrec.visto_por) := by
    rw [hr]
    unfold saveLockRejected
    simp [happ]
  by_cases hce : canEditLocked org user rrec.visto_por = true
  · have hres : (saveOp org kpis user body store).res ≠ .error .locked := by
      simp only [saveOp, hk, ha, hm, hkpi, hperm, hlr, hce]
      cases saveHasValue body.valor <;> simp
    exact ⟨iff_of_false hres (not_not_intro (hcond.mp hce)),
      fun h => absurd h hres⟩
  · have hce' : canEditLocked org user rrec.visto_por = false := by simpa using hce
    have hred : saveOp org kpis user body store = ⟨.error .locked, store⟩ := by
      simp only [saveOp, hk, ha, hm, hkpi, hperm, hlr, hce']
      simp
    rw [hred]
    exact ⟨iff_of_true rfl (fun hauth => hce (hcond.mpr hauth)), fun _ => rfl⟩

/-- Witness for C4: the original approver (a root employee who approved their
own record) may overwrite the approved record, while a subordinate whose
record was approved by the boss is rejected with the Locked error. -/
theorem c4_save_locked_override_witness :
    (saveOp ⟨[⟨1, some 10⟩, ⟨2, some 20⟩], [⟨10, none⟩, ⟨20, some 10⟩]⟩
      [(7, ⟨some "NUMBER", some "HIGHER_BETTER", .vstr "70", .vstr "90", none, none, none⟩)]
      ⟨1, "user", 10⟩ ⟨some 7, some 2025, some 5, some "95", none, none, none⟩
      (fun k => if k = ⟨1, 7, 2025, 5⟩ then
        some { freshResultado with visto_bueno := 1, visto_por := some 1, visto_fecha := some 0 }
        else none)).res ≠ .error .locked ∧
    (saveOp ⟨[⟨1, some 10⟩, ⟨2, some 20⟩], [⟨10, none⟩, ⟨20, some 10⟩]⟩
      [(7, ⟨some "NUMBER", some "HIGHER_BETTER", .vstr "70", .vstr "90", none, none, none⟩)]
      ⟨2, "user", 20⟩ ⟨some 7, some 2025, some 5, some "95", none, none, none⟩
      (fun k => if k = ⟨2, 7, 2025, 5⟩ then
        some { freshResultado with visto_bueno := 1, visto_por := some 1, visto_fecha := some 0 }
        else none)).res = .error .locked := by
  constructor
  · have h := c4_save_locked_override
      ⟨[⟨1, some 10⟩, ⟨2, some 20⟩], [⟨10, none⟩, ⟨20, some 10⟩]⟩
      [(7, ⟨some "NUMBER", some "HIGHER_BETTER", .vstr "70", .vstr "90", none, none, none⟩)]
      ⟨1, "user", 10⟩ ⟨some 7, some 2025, some 5, some "95", none, none, none⟩
      (fun k => if k = ⟨1, 7, 2025, 5⟩ then
        some { freshResultado with visto_bueno := 1, visto_por := some 1, visto_fecha := some 0 }
        else none)
      7 2025 5
      ⟨some "NUMBER", some "HIGHER_BETTER", .vstr "70", .vstr "90", none, none, none⟩
      { freshResultado with visto_bueno := 1, visto_por := some 1, visto_fecha := some 0 }
      rfl rfl rfl rfl (by decide) rfl rfl (by decide)
    exact fun hres => (h.1.mp hres) (Or.inr ⟨1, rfl, Or.inl rfl⟩)
  · have h := c4_save_locked_override
      ⟨[⟨1, some 10⟩, ⟨2, some 20⟩], [⟨10, none⟩, ⟨20, some 10⟩]⟩
      [(7, ⟨some "NUMBER", some "HIGHER_BETTER", .vstr "70", .vstr "90", none, none, none⟩)]
      ⟨2, "user", 20⟩ ⟨some 7, some 2025, some 5, some "95", none, none, none⟩
      (fun k => if k = ⟨2, 7, 2025, 5⟩ then
        some { freshResultado with visto_bueno := 1, visto_por := some 1, visto_fecha := some 0 }
        else none)
      7 2025 5
      ⟨some "NUMBER", some "HIGHER_BETTER", .vstr "70", .vstr "90", none, none, none⟩
      { freshResultado with visto_bueno := 1, visto_por := some 1, visto_fecha := some 0 }
      rfl rfl rfl rfl (by decide) rfl rfl (by decide)
    refine h.1.mpr ?_
    rintro (helev | ⟨a, haeq, hrest⟩)
    · exact absurd helev (by decide)
    · have hav : (1 : Nat) = a := by
        have := haeq
        simp [freshResultado] at this
        exact this
      subst hav
      rcases hrest with hown | htree
      · exact absurd hown (by decide)
      · exact absurd htree (by decide)

/-- The grade and score produced by `scoreKpi` agree with the fixed red=40 /
yellow=70 / green=100 map, so the score is recoverable from the persisted
grade. -/
theorem scoreKpi_score_consistent (ko : Option Kpi) (v : JSVal) :
    (scoreKpi ko v).score = scoreFromColorOpt ((scoreKpi ko v).color) := by
  cases ko with
  | none => rfl
  | some kpi =>
    simp only [scoreKpi]
    split
    · split_ifs <;> rfl
    · split
      · rfl
      · split
        · split_ifs <;> rfl
        · rfl

/-- The manual-grade reply score of the save route also agrees with the
grade-to-score map in `Option` form. -/
theorem manualScore_eq_scoreFromColorOpt (c : String) :
    manualScore c = scoreFromColorOpt (some c) := rfl

/-- The manual-grade score map of the save route is the export's
grade-to-score map. -/
theorem manualScore_eq_scoreFromColor (c : String) :
    manualScore c = scoreFromColor c := rfl

/-- C7: a capture whose value is absent or trims to the empty string writes
only the comment column of the targeted row — value, grade and the
approval/review columns are untouched — while a value-carrying capture
persists value, grade (with the score, carried in the reply, recoverable from
the persisted grade by the fixed 40/70/100 map) and comment, and never
modifies the approval or review columns; rows under other keys are never
touched. -/
theorem c7_save_value_comment_frame (org : OrgDb) (kpis : KpisDb) (user : User)
    (body : SaveBody) (store : Store) (kpiId anio mes : Nat) (kpi : Kpi) (k : ResultKey)
    (hk : body.kpi_id = some kpiId) (ha : body.anio = some anio) (hm : body.mes = some mes)
    (hkpi : findKpi kpis kpiId = some kpi)
    (hperm : savePermOk org user (body.empleado_id.getD user.id) = true)
    (hkey : k = ⟨body.empleado_id.getD user.id, kpiId, anio, mes⟩)
    (hlk : saveLockRejected org user (store k) = false) :
    (∀ k', k' ≠ k → (saveOp org kpis user body store).store k' = store k')
    ∧ (saveHasValue body.valor = false →
        ((saveOp org kpis user body store).store k).bind (fun r => r.valor)
          = (store k).bind (fun r => r.valor)
        ∧ ((saveOp org kpis user body store).store k).bind (fun r => r.color)
          = (store k).bind (fun r => r.color)
        ∧ ((saveOp org kpis user body store).store k).bind (fun r => r.comentario)
          = jsOrNullStr body.comentario
        ∧ (((saveOp org kpis user body store).store k).map (fun r => r.visto_bueno)).getD 0
          = ((store k).map (fun r => r.visto_bueno)).getD 0
        ∧ ((saveOp org kpis user body store).store k).bind (fun r => r.visto_por)
          = (store k).bind (fun r => r.visto_por)
        ∧ ((saveOp org kpis user body store).store k).bind (fun r => r.revision_por)
          = (store k).bind (fun r => r.revision_por)
        ∧ ((saveOp org kpis user body store).store k).bind (fun r => r.revision_motivo)
          = (store k).bind (fun r => r.revision_motivo))
    ∧ (saveHasValue body.valor = true → ∃ rec,
        (saveOp org kpis user body store).store k = some rec
        ∧ rec.valor = body.valor
        ∧ rec.comentario = jsOrNullStr body.comentario
        ∧ (saveOp org kpis user body store).res =
            .ok (rec.color, scoreFromColorOpt rec.color)
        ∧ rec.visto_bueno = ((store k).map (fun r => r.visto_bueno)).getD 0
        ∧ rec.visto_por = (store k).bind (fun r => r.visto_por)
        ∧ rec.visto_fecha = (store k).bind (fun r => r.visto_fecha)
        ∧ rec.revision_por = (store k).bind (fun r => r.revision_por)
        ∧ rec.revision_fecha = (store k).bind (fun r => r.revision_fecha)
        ∧ rec.revision_motivo = (store k).bind (fun r => r.revision_motivo)) := by
  subst hkey
  by_cases hhv : saveHasValue body.valor = true
  · obtain ⟨s, hs⟩ : ∃ s, body.valor = some s := by
      cases hv : body.valor with
      | none => rw [hv] at hhv; simp [saveHasValue] at hhv
      | some s => exact ⟨s, rfl⟩
    rw [hs] at hhv
    cases hcc : jsOrNullStr body.color with
    | none =>
      have hred : saveOp org kpis user body store =
          ⟨.ok ((scoreKpi (some kpi) (JSVal.vstr s)).color,
              (scoreKpi (some kpi) (JSVal.vstr s)).score),
           Store.put store ⟨body.empleado_id.getD user.id, kpiId, anio, mes⟩
             (saveValueUpsert s ((scoreKpi (some kpi) (JSVal.vstr s)).color)
               (jsOrNullStr body.comentario)
               (store ⟨body.empleado_id.getD user.id, kpiId, anio, mes⟩))⟩ := by
        simp only [saveOp, hk, ha, hm, hkpi, hperm, hlk, hhv, hs, hcc]
        simp [hhv]
      refine ⟨?_, ?_, fun _ => ?_⟩
      · intro k' hk'
        rw [hred]
        simp [Store.put, hk']
      · intro hfalse
        rw [hs] at hfalse
        rw [hfalse] at hhv
        exact absurd hhv (by decide)
      · refine ⟨saveValueUpsert s ((scoreKpi (some kpi) (JSVal.vstr s)).color)
          (jsOrNullStr body.comentario)
          (store ⟨body.empleado_id.getD user.id, kpiId, anio, mes⟩),
          ?_, ?_, ?_, ?_, ?_, ?_, ?_, ?_, ?_, ?_⟩
        · rw [hred]; simp [Store.put]
        · cases store ⟨body.empleado_id.getD user.id, kpiId, anio, mes⟩ <;>
            simp [saveValueUpsert, hs]
        · cases store ⟨body.empleado_id.getD user.id, kpiId, anio, mes⟩ <;>
            simp [saveValueUpsert]
        · have hcol : (saveValueUpsert s ((scoreKpi (some kpi) (JSVal.vstr s)).color)
              (jsOrNullStr body.comentario)
              (store ⟨body.empleado_id.getD user.id, kpiId, anio, mes⟩)).color
              = (scoreKpi (some kpi) (JSVal.vstr s)).color := by
            cases store ⟨body.empleado_id.getD user.id, kpiId, anio, mes⟩ <;> rfl
          rw [hred, hcol, ← scoreKpi_score_consistent]
        · cases store ⟨body.empleado_id.getD user.id, kpiId, anio, mes⟩ <;>
            simp [saveValueUpsert, freshResultado]
        · cases store ⟨body.empleado_id.getD user.id, kpiId, anio, mes⟩ <;>
            simp [saveValueUpsert, freshResultado]
        · cases store ⟨body.empleado_id.getD user.id, kpiId, anio, mes⟩ <;>
            simp [saveValueUpsert, freshResultado]
        · cases store ⟨body.empleado_id.getD user.id, kpiId, anio, mes⟩ <;>
            simp [saveValueUpsert, freshResultado]
        · cases store ⟨body.empleado_id.getD user.id, kpiId, anio, mes⟩ <;>
            simp [saveValueUpsert, freshResultado]
        · cases store ⟨body.empleado_id.getD user.id, kpiId, anio, mes⟩ <;>
            simp [saveValueUpsert, freshResultado]
    | some c =>
      have hred : saveOp org kpis user body store =
          ⟨.ok (some c, manualScore c),
           Store.put store ⟨body.empleado_id.getD user.id, kpiId, anio, mes⟩
             (saveValueUpsert s (some c) (jsOrNullStr body.comentario)
               (store ⟨body.empleado_id.getD user.id, kpiId, anio, mes⟩))⟩ := by
        simp only [saveOp, hk, ha, hm, hkpi, hperm, hlk, hhv, hs, hcc]
        simp [hhv]
      refine ⟨?_, ?_, fun _ => ?_⟩
      · intro k' hk'
        rw [hred]
        simp [Store.put, hk']
      · intro hfalse
        rw [hs] at hfalse
        rw [hfalse] at hhv
        exact absurd hhv (by decide)
      · refine ⟨saveValueUpsert s (some c) (jsOrNullStr body.comentario)
          (store ⟨body.empleado_id.getD user.id, kpiId, anio, mes⟩),
          ?_, ?_, ?_, ?_, ?_, ?_, ?_, ?_, ?_, ?_⟩
        · rw [hred]; simp [Store.put]
        · cases store ⟨body.empleado_id.getD user.id, kpiId, anio, mes⟩ <;>
            simp [saveValueUpsert, hs]
        · cases store ⟨body.empleado_id.getD user.id, kpiId, anio, mes⟩ <;>
            simp [saveValueUpsert]
        · have hcol : (saveValueUpsert s (some c) (jsOrNullStr body.comentario)
              (store ⟨body.empleado_id.getD user.id, kpiId, anio, mes⟩)).color
              = some c := by
            cases store ⟨body.empleado_id.getD user.id, kpiId, anio, mes⟩ <;> rfl
          rw [hred, hcol, manualScore_eq_scoreFromColorOpt]
        · cases store ⟨body.empleado_id.getD user.id, kpiId, anio, mes⟩ <;>
            simp [saveValueUpsert, freshResultado]
        · cases store ⟨body.empleado_id.getD user.id, kpiId, anio, mes⟩ <;>
            simp [saveValueUpsert, freshResultado]
        · cases store ⟨body.empleado_id.getD user.id, kpiId, anio, mes⟩ <;>
            simp [saveValueUpsert, freshResultado]
        · cases store ⟨body.empleado_id.getD user.id, kpiId, anio, mes⟩ <;>
            simp [saveValueUpsert, freshResultado]
        · cases store ⟨body.empleado_id.getD user.id, kpiId, anio, mes⟩ <;>
            simp [saveValueUpsert, freshResultado]
        · cases store ⟨body.empleado_id.getD user.id, kpiId, anio, mes⟩ <;>
            simp [saveValueUpsert, freshResultado]
  · have hhv' : saveHasValue body.valor = false := by simpa using hhv
    have hred : saveOp org kpis user body store =
        ⟨.ok (jsOrNullStr body.color, none),
         Store.put store ⟨body.empleado_id.getD user.id, kpiId, anio, mes⟩
           (saveCommentUpsert (jsOrNullStr body.comentario)
             (store ⟨body.empleado_id.getD user.id, kpiId, anio, mes⟩))⟩ := by
      simp only [saveOp, hk, ha, hm, hkpi, hperm, hlk, hhv']
      simp [hhv']
    refine ⟨?_, fun _ => ?_, fun htrue => absurd htrue hhv⟩
    · intro k' hk'
      rw [hred]
      simp [Store.put, hk']
    · rw [hred]
      simp only [Store.put, if_pos rfl]
      cases store ⟨body.empleado_id.getD user.id, kpiId, anio, mes⟩ <;>
        simp [saveCommentUpsert, freshResultado]

/-- Witness for C7: a comment-only capture on a row holding value "80" and a
yellow grade keeps both and stores the comment. -/
theorem c7_save_value_comment_frame_witness :
    ((saveOp ⟨[⟨1, some 10⟩], [⟨10, none⟩]⟩
        [(7, ⟨some "NUMBER", some "HIGHER_BETTER", .vstr "70", .vstr "90", none, none, none⟩)]
        ⟨1, "user", 10⟩ ⟨some 7, some 2025, some 5, none, none, none, some "nota"⟩
        (fun k => if k = ⟨1, 7, 2025, 5⟩ then
          some { freshResultado with valor := some "80", color := some "amarillo" }
          else none)).store ⟨1, 7, 2025, 5⟩).bind (fun r => r.valor)
      = ((fun (k : ResultKey) => if k = ⟨1, 7, 2025, 5⟩ then
          some { freshResultado with valor := some "80", color := some "amarillo" }
          else none) ⟨1, 7, 2025, 5⟩).bind (fun r => r.valor) ∧
    ((saveOp ⟨[⟨1, some 10⟩], [⟨10, none⟩]⟩
        [(7, ⟨some "NUMBER", some "HIGHER_BETTER", .vstr "70", .vstr "90", none, none, none⟩)]
        ⟨1, "user", 10⟩ ⟨some 7, some 2025, some 5, none, none, none, some "nota"⟩
        (fun k => if k = ⟨1, 7, 2025, 5⟩ then
          some { freshResultado with valor := some "80", color := some "amarillo" }
          else none)).store ⟨1, 7, 2025, 5⟩).bind (fun r => r.comentario)
      = some "nota" := by
  have h := c7_save_value_comment_frame
    ⟨[⟨1, some 10⟩], [⟨10, none⟩]⟩
    [(7, ⟨some "NUMBER", some "HIGHER_BETTER", .vstr "70", .vstr "90", none, none, none⟩)]
    ⟨1, "user", 10⟩ ⟨some 7, some 2025, some 5, none, none, none, some "nota"⟩
    (fun k => if k = ⟨1, 7, 2025, 5⟩ then
      some { freshResultado with valor := some "80", color := some "amarillo" }
      else none)
    7 2025 5
    ⟨some "NUMBER", some "HIGHER_BETTER", .vstr "70", .vstr "90", none, none, none⟩
    ⟨1, 7, 2025, 5⟩
    rfl rfl rfl rfl (by decide) rfl (by decide)
  exact ⟨(h.2.1 rfl).1, (h.2.1 rfl).2.2.1⟩

/-- The last element of a list is an element of the list. -/
theorem mem_of_getLast?_eq (l : List Nat) (x : Nat) (h : l.getLast? = some x) :
    x ∈ l := by
  induction l with
  | nil => simp at h
  | cons a rest ih =>
    cases rest with
    | nil => simp at h; simp [h]
    | cons b rest' =>
      rw [List.getLast?_cons_cons] at h
      exact List.mem_cons_of_mem a (ih h)

/-- Membership in the accumulating fold of `buildSubordinatePuestoIds`. -/
theorem mem_buildFold (puestoMap : List Puesto) (fuel puestoId x : Nat) :
    ∀ (l : List Puesto) (acc : List Nat),
      (x ∈ l.foldl
        (fun subordinates p =>
          if p.responde_a_id = some puestoId then
            (subordinates ++ [p.id]) ++ buildSubordinatePuestoIds fuel p.id puestoMap
          else subordinates)
        acc
      ↔ x ∈ acc ∨ ∃ p ∈ l, p.responde_a_id = some puestoId ∧
          (x = p.id ∨ x ∈ buildSubordinatePuestoIds fuel p.id puestoMap)) := by
  intro l
  induction l with
  | nil => intro acc; simp
  | cons hd tl ih =>
    intro acc
    rw [List.foldl_cons]
    by_cases hh : hd.responde_a_id = some puestoId
    · rw [if_pos hh, ih]
      simp only [List.mem_append, List.mem_cons, List.not_mem_nil, or_false]
      constructor
      · rintro (((hacc | hid) | hrec) | ⟨p, hp, hcond, hor⟩)
        · exact Or.inl hacc
        · exact Or.inr ⟨hd, Or.inl rfl, hh, Or.inl hid⟩
        · exact Or.inr ⟨hd, Or.inl rfl, hh, Or.inr hrec⟩
        · exact Or.inr ⟨p, Or.inr hp, hcond, hor⟩
      · rintro (hacc | ⟨p, hp | hp, hcond, hor⟩)
        · exact Or.inl (Or.inl (Or.inl hacc))
        · subst hp
          rcases hor with hid | hrec
          · exact Or.inl (Or.inl (Or.inr hid))
          · exact Or.inl (Or.inr hrec)
        · exact Or.inr ⟨p, hp, hcond, hor⟩
    · rw [if_neg hh, ih]
      constructor
      · rintro (hacc | ⟨p, hp, hcond, hor⟩)
        · exact Or.inl hacc
        · exact Or.inr ⟨p, List.mem_cons_of_mem hd hp, hcond, hor⟩
      · rintro (hacc | ⟨p, hp, hcond, hor⟩)
        · exact Or.inl hacc
        · rcases List.mem_cons.mp hp with rfl | hp'
          · exact absurd hcond hh
          · exact Or.inr ⟨p, hp', hcond, hor⟩

/-- One-step unfolding of `buildSubordinatePuestoIds` membership. -/
theorem mem_buildSubordinate_succ (m : List Puesto) (fuel t x : Nat) :
    x ∈ buildSubordinatePuestoIds (fuel + 1) t m ↔
      ∃ p ∈ m, p.responde_a_id = some t ∧
        (x = p.id ∨ x ∈ buildSubordinatePuestoIds fuel p.id m) := by
  show x ∈ List.foldl _ [] m ↔ _
  rw [mem_buildFold m fuel t x m []]
  simp

/-- Soundness of the traversal: every returned id is the bottom of a chain of
direct-report links hanging below the queried position. -/
theorem buildSubordinate_sound (m : List Puesto) :
    ∀ (fuel t x : Nat), x ∈ buildSubordinatePuestoIds fuel t m →
      ∃ l : List Nat, PuestoChain m t l ∧ l.getLast? = some x := by
  intro fuel
  induction fuel with
  | zero => intro t x hx; simp [buildSubordinatePuestoIds] at hx
  | succ f ih =>
    intro t x hx
    rw [mem_buildSubordinate_succ] at hx
    obtain ⟨p, hp, hcond, hor⟩ := hx
    rcases hor with rfl | hrec
    · exact ⟨[p.id], ⟨⟨p, hp, rfl, hcond⟩, trivial⟩, rfl⟩
    · obtain ⟨l, hchain, hlast⟩ := ih p.id x hrec
      refine ⟨p.id :: l, ⟨⟨p, hp, rfl, hcond⟩, hchain⟩, ?_⟩
      cases l with
      | nil => simp at hlast
      | cons b rest => rw [List.getLast?_cons_cons]; exact hlast

/-- Completeness of the traversal: the bottom of any chain of length at most
`fuel` below the queried position is returned. -/
theorem buildSubordinate_complete (m : List Puesto) :
    ∀ (l : List Nat) (t x fuel : Nat), PuestoChain m t l → l.getLast? = some x →
      l.length ≤ fuel → x ∈ buildSubordinatePuestoIds fuel t m := by
  intro l
  induction l with
  | nil => intro t x fuel _ hlast; simp at hlast
  | cons a rest ih =>
    intro t x fuel hchain hlast hlen
    obtain ⟨⟨p, hp, hpid, hpr⟩, hrest⟩ := hchain
    cases fuel with
    | zero => simp at hlen
    | succ f =>
      rw [mem_buildSubordinate_succ]
      cases rest with
      | nil =>
        simp at hlast
        exact ⟨p, hp, hpr, Or.inl (by omega)⟩
      | cons b rest' =>
        rw [List.getLast?_cons_cons] at hlast
        have hlen' : (b :: rest').length ≤ f := by
          simp at hlen ⊢; omega
        have hx := ih a x f hrest hlast hlen'
        exact ⟨p, hp, hpr, Or.inr (by rw [hpid]; exact hx)⟩

/-- Every element of a chain below `t` has smaller rank than `t` under an
acyclicity ranking. -/
theorem chain_rank_lt (m : List Puesto) (rank : Nat → Nat)
    (hacyc : ∀ p ∈ m, ∀ q, p.responde_a_id = some q → rank p.id < rank q) :
    ∀ (l : List Nat) (t : Nat), PuestoChain m t l → ∀ b ∈ l, rank b < rank t := by
  intro l
  induction l with
  | nil => intro t _ b hb; simp at hb
  | cons a rest ih =>
    intro t hchain b hb
    obtain ⟨⟨p, hp, hpid, hpr⟩, hrest⟩ := hchain
    have hat : rank a < rank t := by
      have := hacyc p hp t hpr
      rwa [hpid] at this
    rcases List.mem_cons.mp hb with rfl | hb'
    · exact hat
    · exact lt_trans (ih a hrest b hb') hat

/-- Under an acyclicity ranking a chain visits pairwise distinct ids. -/
theorem chain_nodup (m : List Puesto) (rank : Nat → Nat)
    (hacyc : ∀ p ∈ m, ∀ q, p.responde_a_id = some q → rank p.id < rank q) :
    ∀ (l : List Nat) (t : Nat), PuestoChain m t l → l.Nodup := by
  intro l
  induction l with
  | nil => intro t _; exact List.nodup_nil
  | cons a rest ih =>
    intro t hchain
    obtain ⟨hhead, hrest⟩ := hchain
    refine List.nodup_cons.mpr ⟨?_, ih a hrest⟩
    intro hmem
    exact absurd (chain_rank_lt m rank hacyc rest a hrest a hmem) (lt_irrefl _)

/-- Every element of a chain is the id of some position row. -/
theorem chain_mem_ids (m : List Puesto) :
    ∀ (l : List Nat) (t : Nat), PuestoChain m t l → ∀ b ∈ l, b ∈ m.map (fun p => p.id) := by
  intro l
  induction l with
  | nil => intro t _ b hb; simp at hb
  | cons a rest ih =>
    intro t hchain b hb
    obtain ⟨⟨p, hp, hpid, _⟩, hrest⟩ := hchain
    rcases List.mem_cons.mp hb with rfl | hb'
    · exact List.mem_map.mpr ⟨p, hp, hpid⟩
    · exact ih a hrest b hb'

/-- Under an acyclicity ranking no chain is longer than the position list. -/
theorem chain_length_le (m : List Puesto) (rank : Nat → Nat)
    (hacyc : ∀ p ∈ m, ∀ q, p.responde_a_id = some q → rank p.id < rank q)
    (l : List Nat) (t : Nat) (hchain : PuestoChain m t l) :
    l.length ≤ m.length := by
  have hsub : l ⊆ m.map (fun p => p.id) := fun b hb => chain_mem_ids m l t hchain b hb
  have hnd := chain_nodup m rank hacyc l t hchain
  have := (List.subperm_of_subset hnd hsub).length_le
  simpa using this

/-- Appending one more direct report at the bottom of a chain. -/
theorem chain_append (m : List Puesto) :
    ∀ (l : List Nat) (t mid b : Nat), PuestoChain m t l → l.getLast? = some mid →
      (∃ p ∈ m, p.id = b ∧ p.responde_a_id = some mid) →
      PuestoChain m t (l ++ [b]) ∧ (l ++ [b]).getLast? = some b := by
  intro l
  induction l with
  | nil => intro t mid b _ hlast; simp at hlast
  | cons a rest ih =>
    intro t mid b hchain hlast hedge
    obtain ⟨hhead, hrest⟩ := hchain
    cases rest with
    | nil =>
      simp at hlast
      subst hlast
      exact ⟨⟨hhead, hedge, trivial⟩, rfl⟩
    | cons c rest' =>
      rw [List.getLast?_cons_cons] at hlast
      obtain ⟨hch, hlst⟩ := ih a mid b hrest hlast hedge
      refine ⟨⟨hhead, hch⟩, ?_⟩
      simp only [List.cons_append] at hlst ⊢
      rw [List.getLast?_cons_cons]
      exact hlst

/-- Rerooting: a chain witness from `x` up to `a` extends along one more
upward link from `a` to `t`. -/
theorem reportsUp_extend (m : List Puesto) (x a t : Nat)
    (hup : ReportsUp m x a) :
    (∃ p ∈ m, p.id = a ∧ p.responde_a_id = some t) → ReportsUp m x t := by
  induction hup with
  | direct a' q hq hqr =>
    rintro ⟨p, hp, hpid, hpr⟩
    refine .step t q a' hq hqr ?_
    have hd : ReportsUp m p.id t := .direct t p hp hpr
    rwa [hpid] at hd
  | step a' q mid hq hqr _ ih =>
    intro hedge
    exact .step t q mid hq hqr (ih hedge)

/-- The claim-side subordination relation coincides with the existence of a
downward chain ending at the queried id. -/
theorem reportsUp_iff_chain (m : List Puesto) (x t : Nat) :
    ReportsUp m x t ↔ ∃ l : List Nat, PuestoChain m t l ∧ l.getLast? = some x := by
  constructor
  · intro hup
    induction hup with
    | direct t' p hp hpr => exact ⟨[p.id], ⟨⟨p, hp, rfl, hpr⟩, trivial⟩, rfl⟩
    | step t' p mid hp hpr _ ih =>
      obtain ⟨l, hchain, hlast⟩ := ih
      obtain ⟨hch, hlst⟩ := chain_append m l t' mid p.id hchain hlast ⟨p, hp, rfl, hpr⟩
      exact ⟨l ++ [p.id], hch, hlst⟩
  · rintro ⟨l, hchain, hlast⟩
    induction l generalizing t with
    | nil => simp at hlast
    | cons a rest ih =>
      obtain ⟨⟨p, hp, hpid, hpr⟩, hrest⟩ := hchain
      cases rest with
      | nil =>
        have hax : a = x := by simpa using hlast
        subst hax
        have hd : ReportsUp m p.id t := .direct t p hp hpr
        rwa [hpid] at hd
      | cons b rest' =>
        rw [List.getLast?_cons_cons] at hlast
        have hxa : ReportsUp m x a := ih a hrest hlast
        exact reportsUp_extend m x a t hxa ⟨p, hp, hpid, hpr⟩

/-- C5: on a position list whose `responde_a_id` graph is acyclic (witnessed
by a ranking that strictly increases along each upward link), the traversal
called with the list length as recursion budget returns exactly the ids of
the positions whose chain of superiors eventually reaches `P`, and never `P`
itself. -/
theorem c5_buildSubordinatePuestoIds_correct (m : List Puesto) (P : Nat)
    (rank : Nat → Nat)
    (hacyc : ∀ p ∈ m, ∀ q, p.responde_a_id = some q → rank p.id < rank q) :
    (∀ x, x ∈ buildSubordinatePuestoIds m.length P m ↔ ReportsUp m x P)
    ∧ P ∉ buildSubordinatePuestoIds m.length P m := by
  have hchar : ∀ x, x ∈ buildSubordinatePuestoIds m.length P m ↔ ReportsUp m x P := by
    intro x
    constructor
    · intro hx
      obtain ⟨l, hchain, hlast⟩ := buildSubordinate_sound m m.length P x hx
      exact (reportsUp_iff_chain m x P).mpr ⟨l, hchain, hlast⟩
    · intro hup
      obtain ⟨l, hchain, hlast⟩ := (reportsUp_iff_chain m x P).mp hup
      exact buildSubordinate_complete m l P x m.length hchain hlast
        (chain_length_le m rank hacyc l P hchain)
  refine ⟨hchar, fun hP => ?_⟩
  obtain ⟨l, hchain, hlast⟩ := buildSubordinate_sound m m.length P P hP
  have hmem := mem_of_getLast?_eq l P hlast
  exact absurd (chain_rank_lt m rank hacyc l P hchain P hmem) (lt_irrefl _)

/-- Witness for C5 on the three-level chain 1 ← 2 ← 3: the traversal returns
[2, 3] below 1, [3] below 2 and nothing below 3, matching the subordination
relation, and the root is not its own subordinate. -/
theorem c5_buildSubordinatePuestoIds_correct_witness :
    buildSubordinatePuestoIds 3 1 [⟨1, none⟩, ⟨2, some 1⟩, ⟨3, some 2⟩] = [2, 3] ∧
    buildSubordinatePuestoIds 3 2 [⟨1, none⟩, ⟨2, some 1⟩, ⟨3, some 2⟩] = [3] ∧
    buildSubordinatePuestoIds 3 3 [⟨1, none⟩, ⟨2, some 1⟩, ⟨3, some 2⟩] = [] ∧
    ReportsUp [⟨1, none⟩, ⟨2, some 1⟩, ⟨3, some 2⟩] 3 1 ∧
    (1 : Nat) ∉ buildSubordinatePuestoIds 3 1 [⟨1, none⟩, ⟨2, some 1⟩, ⟨3, some 2⟩] := by
  have hacyc : ∀ p ∈ [(⟨1, none⟩ : Puesto), ⟨2, some 1⟩, ⟨3, some 2⟩],
      ∀ q, p.responde_a_id = some q → (fun n => 4 - n) p.id < (fun n => 4 - n) q := by
    intro p hp q hq
    fin_cases hp <;> simp_all <;> omega
  have h := c5_buildSubordinatePuestoIds_correct
    [⟨1, none⟩, ⟨2, some 1⟩, ⟨3, some 2⟩] 1 (fun n => 4 - n) hacyc
  refine ⟨by decide, by decide, by decide, ?_, h.2⟩
  exact (h.1 3).mp (by decide)
